import Mathlib

/-!
Shallow embedding of the `ifyoulike` entity-resolution pipeline.

The definitions below are translated from the repository's Python sources:
* `src/musicBrainz/search_tools.py` — top-match selection over catalog responses,
* `src/search_executor.py` — song/album/artist search execution with the
  swap-retry heuristic and artist-set reconciliation,
* `src/playlist_generator.py` — album track sampling and track deduplication,
* `src/llm_linker.py` (`process_comments_file`) — batch processing that pairs
  extraction results with text-unit metadata.

External services (the MusicBrainz catalog, the Spotify API, the LLM extractor)
are modelled as deterministic oracle functions passed in as parameters: each
oracle maps a query to the response the frozen external service would give.
Python's falsy values (`None`, `[]`, `""`) are modelled explicitly where the
code branches on truthiness.  Python exceptions that the code catches and turns
into "skip this item" are modelled by `Option`-valued oracles.  All functions
are total, which reflects that the modelled code paths never raise.
-/

namespace IfYouLike

/-- One catalog hit as projected by `search_tools.py` (`id`, display name,
relevance `score`; the remaining projected fields are irrelevant to selection
and omitted). -/
structure Candidate where
  id : String
  name : String
  score : Int
  deriving DecidableEq, Repr

/-- Python's `max(x :: xs, key=f)`: fold over the tail keeping the current
best, replacing it only on a strictly greater key — so among equal maxima the
first one encountered wins. -/
def pyMaxBy (f : α → Int) (x : α) (xs : List α) : α :=
  xs.foldl (fun b c => if f c > f b then c else b) x

/-- `_get_top_match` from `src/musicBrainz/search_tools.py`: `None` on an empty
list, otherwise `max(results, key=lambda x: x["score"])`. -/
def getTopMatch : List Candidate → Option Candidate
  | [] => none
  | x :: xs => some (pyMaxBy (fun c => c.score) x xs)

/-- The Python `max` fold returns the first element attaining the maximum key:
there is a decomposition `pre ++ m :: post` of the input where `m` is the
result, every element is `≤ m` under the key, and everything before `m` is
strictly below it. -/
theorem pyMaxBy_first_max (f : α → Int) (x : α) (xs : List α) :
    ∃ pre post, x :: xs = pre ++ pyMaxBy f x xs :: post ∧
      (∀ y ∈ x :: xs, f y ≤ f (pyMaxBy f x xs)) ∧
      (∀ y ∈ pre, f y < f (pyMaxBy f x xs)) := by
  induction xs generalizing x with
  | nil =>
    refine ⟨[], [], by simp [pyMaxBy], ?_, by simp⟩
    intro y hy
    simp [pyMaxBy] at hy ⊢
    simp [hy]
  | cons c cs ih =>
    have hstep : pyMaxBy f x (c :: cs) = pyMaxBy f (if f c > f x then c else x) cs := by
      simp [pyMaxBy]
    by_cases h : f c > f x
    · -- the running best becomes `c`
      obtain ⟨pre, post, hdec, hle, hlt⟩ := ih c
      have hres : pyMaxBy f x (c :: cs) = pyMaxBy f c cs := by rw [hstep, if_pos h]
      have hxlt : f x < f (pyMaxBy f c cs) := by
        have := hle c (by simp)
        omega
      refine ⟨x :: pre, post, ?_, ?_, ?_⟩
      · rw [hres]; simpa using congrArg (x :: ·) hdec
      · intro y hy
        rw [hres]
        rcases List.mem_cons.mp hy with rfl | hy
        · omega
        · exact hle y hy
      · intro y hy
        rw [hres]
        rcases List.mem_cons.mp hy with rfl | hy
        · exact hxlt
        · exact hlt y hy
    · -- the running best stays `x`
      obtain ⟨pre, post, hdec, hle, hlt⟩ := ih x
      have hres : pyMaxBy f x (c :: cs) = pyMaxBy f x cs := by rw [hstep, if_neg h]
      cases pre with
      | nil =>
        -- the maximum of `x :: cs` is `x` itself
        simp only [List.nil_append] at hdec
        injection hdec with hx hpost
        refine ⟨[], c :: cs, by simp [hres, ← hx], ?_, by simp⟩
        intro y hy
        rw [hres, ← hx]
        rcases List.mem_cons.mp hy with rfl | hy
        · exact le_refl (f y)
        · rcases List.mem_cons.mp hy with rfl | hy
          · omega
          · have := hle y (by simp [hy])
            rwa [← hx] at this
      | cons p ps =>
        -- the maximum of `x :: cs` sits inside `cs`, past `x`
        simp only [List.cons_append] at hdec
        injection hdec with hx htail
        have hplt : f x < f (pyMaxBy f x cs) := by
          have := hlt p (by simp)
          rw [← hx] at this
          exact this
        refine ⟨x :: c :: ps, post, ?_, ?_, ?_⟩
        · rw [hres]
          simp only [List.cons_append]
          rw [← htail]
        · intro y hy
          rw [hres]
          rcases List.mem_cons.mp hy with rfl | hy
          · omega
          · rcases List.mem_cons.mp hy with rfl | hy
            · omega
            · exact hle y (by simp [hy])
        · intro y hy
          rw [hres]
          rcases List.mem_cons.mp hy with rfl | hy
          · exact hplt
          · rcases List.mem_cons.mp hy with rfl | hy
            · omega
            · exact hlt y (by simp [hy])

/-- Python truthiness of the optional `artist_name` field: `None` and the
empty string are falsy.  `search_song`/`search_album` include the artist clause
in the catalog query only for a truthy artist, and `execute_*_searches` attempt
the swap only for a truthy artist; this function returns the artist clause that
actually reaches the catalog (`none` when the field is falsy). -/
def artistFilter : Option String → Option String
  | none => none
  | some a => if a = "" then none else some a

/-- A song search dict `{"song_title": ..., "artist_name": ...?}` as produced
by the extractor and consumed (and mutated) by `execute_song_searches`. -/
structure SongSearch where
  song_title : String
  artist_name : Option String
  deriving DecidableEq, Repr

/-- An album search dict `{"album_title": ..., "artist_name": ...?}`. -/
structure AlbumSearch where
  album_title : String
  artist_name : Option String
  deriving DecidableEq, Repr

/-- Frozen recording-search backend: maps the (title, optional artist clause)
query to the catalog response; `none` models a response without the
`"recordings"` key, `some l` a response whose candidate list is `l`. -/
def SongOracle : Type := String → Option String → Option (List Candidate)

/-- Frozen release-group-search backend, same shape as `SongOracle`. -/
def AlbumOracle : Type := String → Option String → Option (List Candidate)

/-- Frozen artist-search backend: `none` models a response without the
`"artists"` key. -/
def ArtistOracle : Type := String → Option (List Candidate)

/-- `search_song` from `search_tools.py`: build the query (artist clause only
when truthy), return `[]` when the response lacks the result key — which is
falsy, like the `None` returned by `_get_top_match` on an empty candidate
list; both are modelled as `none`. -/
def search_song (oracle : SongOracle) (song_title : String)
    (artist_name : Option String) : Option Candidate :=
  match oracle song_title (artistFilter artist_name) with
  | none => none
  | some l => getTopMatch l

/-- `search_album` from `search_tools.py`, same structure as `search_song`. -/
def search_album (oracle : AlbumOracle) (album_title : String)
    (artist_name : Option String) : Option Candidate :=
  match oracle album_title (artistFilter artist_name) with
  | none => none
  | some l => getTopMatch l

/-- `search_artist` from `search_tools.py`. -/
def search_artist (oracle : ArtistOracle) (artist_name : String) : Option Candidate :=
  match oracle artist_name with
  | none => none
  | some l => getTopMatch l

/-- Outcome of one iteration of the `execute_song_searches` loop: the (possibly
swapped) search dict, the match (if any), and what was appended to
`additional_artists` / `misidentified_songs`. -/
structure SongStep where
  search : SongSearch
  found : Option Candidate
  additional : List String
  misidentified : List String
  deriving DecidableEq, Repr

/-- One iteration of the loop in `execute_song_searches`
(`search_executor.py`, lines 90–109): direct query; on a falsy result with a
truthy artist, retry with the fields swapped; on swap success, exchange the
fields in place, then append `search["song_title"]` (the post-swap title) to
`additional_artists` and `search["artist_name"]` (the post-swap artist) to
`misidentified_songs`. -/
def stepSong (oracle : SongOracle) (s : SongSearch) : SongStep :=
  match search_song oracle s.song_title s.artist_name with
  | some c => ⟨s, some c, [], []⟩
  | none =>
    match s.artist_name with
    | none => ⟨s, none, [], []⟩
    | some a =>
      if a = "" then ⟨s, none, [], []⟩
      else
        match search_song oracle a (some s.song_title) with
        | none => ⟨s, none, [], []⟩
        | some c => ⟨⟨a, some s.song_title⟩, some c, [a], [s.song_title]⟩

/-- The value of the local variables of `execute_song_searches` after the
loop: the mutated search list, `song_matches`, `additional_artists`,
`misidentified_songs`. -/
structure SongExec where
  searches : List SongSearch
  matchList : List Candidate
  additional : List String
  misidentified : List String
  deriving DecidableEq, Repr

/-- `execute_song_searches` from `search_executor.py`.  The search dicts are
mutated in place by the loop, so the mutated list is part of the result. -/
def execute_song_searches (oracle : SongOracle) : List SongSearch → SongExec
  | [] => ⟨[], [], [], []⟩
  | s :: rest =>
    let st := stepSong oracle s
    let r := execute_song_searches oracle rest
    ⟨st.search :: r.searches,
     (match st.found with | some c => c :: r.matchList | none => r.matchList),
     st.additional ++ r.additional,
     st.misidentified ++ r.misidentified⟩

/-- Outcome of one iteration of the `execute_album_searches` loop. -/
structure AlbumStep where
  search : AlbumSearch
  found : Option Candidate
  additional : List String
  misidentified : List String
  deriving DecidableEq, Repr

/-- One iteration of the loop in `execute_album_searches`
(`search_executor.py`, lines 52–72), mirroring `stepSong`. -/
def stepAlbum (oracle : AlbumOracle) (s : AlbumSearch) : AlbumStep :=
  match search_album oracle s.album_title s.artist_name with
  | some c => ⟨s, some c, [], []⟩
  | none =>
    match s.artist_name with
    | none => ⟨s, none, [], []⟩
    | some a =>
      if a = "" then ⟨s, none, [], []⟩
      else
        match search_album oracle a (some s.album_title) with
        | none => ⟨s, none, [], []⟩
        | some c => ⟨⟨a, some s.album_title⟩, some c, [a], [s.album_title]⟩

/-- Result of `execute_album_searches`. -/
structure AlbumExec where
  searches : List AlbumSearch
  matchList : List Candidate
  additional : List String
  misidentified : List String
  deriving DecidableEq, Repr

/-- `execute_album_searches` from `search_executor.py`. -/
def execute_album_searches (oracle : AlbumOracle) : List AlbumSearch → AlbumExec
  | [] => ⟨[], [], [], []⟩
  | s :: rest =>
    let st := stepAlbum oracle s
    let r := execute_album_searches oracle rest
    ⟨st.search :: r.searches,
     (match st.found with | some c => c :: r.matchList | none => r.matchList),
     st.additional ++ r.additional,
     st.misidentified ++ r.misidentified⟩

/-- `execute_artist_searches` from `search_executor.py`: search each name,
keep truthy matches. -/
def execute_artist_searches (oracle : ArtistOracle) (names : List String) :
    List Candidate :=
  names.filterMap (search_artist oracle)

/-- The `SearchResults` payload handed to `execute_searches`. -/
structure SearchResults where
  song_searches : List SongSearch
  album_searches : List AlbumSearch
  artist_searches : List String
  deriving DecidableEq, Repr

/-- Python `set(adds) - set(miss)` as used on line 18 of
`search_executor.py`, modelled as a duplicate-free list: first occurrences of
`adds`, with every element of `miss` removed.  A Python `set` iterates in an
unspecified (hash-dependent) order; only membership in this list is meaningful,
and the theorems below use it only through membership and list equality on
inputs where the order is forced. -/
def pySetDiff (adds miss : List String) : List String :=
  adds.eraseDups.filter (fun x => !miss.contains x)

/-- The `artists_to_search` set computed inside `execute_searches`
(`search_executor.py`, line 18), from the lists `execute_searches` actually
has in scope there: the SECOND `execute_song_searches` call's outputs (the
first call's results are overwritten on line 13) and the album call's
outputs. -/
def artists_to_search_of (so : SongOracle) (ao : AlbumOracle)
    (searches : SearchResults) : List String :=
  let second := execute_song_searches so
    (execute_song_searches so searches.song_searches).searches
  let albumR := execute_album_searches ao searches.album_searches
  pySetDiff (second.additional ++ albumR.additional ++ searches.artist_searches)
    (second.misidentified ++ albumR.misidentified)

/-- The `matches` payload returned by `execute_searches`. -/
structure ExecOutput where
  artists : List Candidate
  songs : List Candidate
  albums : List Candidate
  deriving DecidableEq, Repr

/-- `execute_searches` from `search_executor.py`: note the duplicated call to
`execute_song_searches` (lines 11 and 13) — the second call runs on the
in-place-mutated search list left by the first, and only the second call's
three outputs remain bound. -/
def execute_searches (so : SongOracle) (ao : AlbumOracle) (aro : ArtistOracle)
    (searches : SearchResults) : ExecOutput :=
  let first := execute_song_searches so searches.song_searches
  let second := execute_song_searches so first.searches
  let albumR := execute_album_searches ao searches.album_searches
  { artists := execute_artist_searches aro (artists_to_search_of so ao searches)
    songs := second.matchList
    albums := albumR.matchList }

/-- `artist_query_set_spec` follows the words of the specification (§4.4),
which describe a SINGLE execution of the song searches feeding the
reconciliation formula; it is compared against `artists_to_search_of`, the set
the code actually computes after its duplicated song-search execution. -/
def artist_query_set_spec (so : SongOracle) (ao : AlbumOracle)
    (searches : SearchResults) : List String :=
  let songR := execute_song_searches so searches.song_searches
  let albumR := execute_album_searches ao searches.album_searches
  pySetDiff (songR.additional ++ albumR.additional ++ searches.artist_searches)
    (songR.misidentified ++ albumR.misidentified)

theorem stepSong_direct (o : SongOracle) (s : SongSearch) (c : Candidate)
    (h : search_song o s.song_title s.artist_name = some c) :
    stepSong o s = ⟨s, some c, [], []⟩ := by
  simp [stepSong, h]

theorem stepSong_swap (o : SongOracle) (s : SongSearch) (a : String) (c : Candidate)
    (ha : s.artist_name = some a) (hne : a ≠ "")
    (hd : search_song o s.song_title s.artist_name = none)
    (hs : search_song o a (some s.song_title) = some c) :
    stepSong o s = ⟨⟨a, some s.song_title⟩, some c, [a], [s.song_title]⟩ := by
  have hd' : search_song o s.song_title (some a) = none := ha ▸ hd
  simp [stepSong, ha, hd', hne, hs]

theorem execute_song_searches_append (o : SongOracle) (xs ys : List SongSearch) :
    execute_song_searches o (xs ++ ys) =
      ⟨(execute_song_searches o xs).searches ++ (execute_song_searches o ys).searches,
       (execute_song_searches o xs).matchList ++ (execute_song_searches o ys).matchList,
       (execute_song_searches o xs).additional ++ (execute_song_searches o ys).additional,
       (execute_song_searches o xs).misidentified ++ (execute_song_searches o ys).misidentified⟩ := by
  induction xs with
  | nil => simp [execute_song_searches]
  | cons s rest ih =>
    simp only [List.cons_append, execute_song_searches, ih]
    cases h : (stepSong o s).found <;> simp [h, ih, List.append_assoc]

theorem execute_song_searches_searches_map (o : SongOracle) (l : List SongSearch) :
    (execute_song_searches o l).searches = l.map (fun s => (stepSong o s).search) := by
  induction l with
  | nil => rfl
  | cons s rest ih => simp [execute_song_searches, ih]

theorem execute_song_searches_additional_bind (o : SongOracle) (l : List SongSearch) :
    (execute_song_searches o l).additional =
      l.flatMap (fun s => (stepSong o s).additional) := by
  induction l with
  | nil => rfl
  | cons s rest ih => simp [execute_song_searches, ih]

/-- Re-running `stepSong` on the search dict a first `stepSong` left behind
never books anything: a direct hit stays a direct hit, a swapped dict now
resolves directly (its direct query is the very swap query that succeeded),
and a failed dict fails identically again. -/
theorem stepSong_restep (o : SongOracle) (s : SongSearch) :
    (stepSong o (stepSong o s).search).additional = [] ∧
    (stepSong o (stepSong o s).search).misidentified = [] := by
  cases hd : search_song o s.song_title s.artist_name with
  | some c =>
    have h1 : stepSong o s = ⟨s, some c, [], []⟩ := stepSong_direct o s c hd
    rw [h1]
    simp [stepSong, hd]
  | none =>
    cases ha : s.artist_name with
    | none =>
      have hd' : search_song o s.song_title none = none := ha ▸ hd
      have h1 : stepSong o s = ⟨s, none, [], []⟩ := by simp [stepSong, ha, hd']
      rw [h1]
      simp [stepSong, ha, hd']
    | some a =>
      have hd' : search_song o s.song_title (some a) = none := ha ▸ hd
      by_cases hne : a = ""
      · subst hne
        have h1 : stepSong o s = ⟨s, none, [], []⟩ := by simp [stepSong, ha, hd']
        rw [h1]
        simp [stepSong, ha, hd']
      · cases hs : search_song o a (some s.song_title) with
        | none =>
          have h1 : stepSong o s = ⟨s, none, [], []⟩ := by
            simp [stepSong, ha, hd', hne, hs]
          rw [h1]
          simp [stepSong, ha, hd', hne, hs]
        | some c =>
          have h1 : stepSong o s = ⟨⟨a, some s.song_title⟩, some c, [a], [s.song_title]⟩ :=
            stepSong_swap o s a c ha hne hd hs
          rw [h1]
          simp [stepSong, search_song] at hs ⊢
          simp [hs]

/-- Executing the song searches a second time, on the list the first execution
mutated in place, books no additional artists and no misidentified songs. -/
theorem second_execution_books_nothing (o : SongOracle) (l : List SongSearch) :
    (execute_song_searches o (execute_song_searches o l).searches).additional = [] ∧
    (execute_song_searches o (execute_song_searches o l).searches).misidentified = [] := by
  rw [execute_song_searches_searches_map]
  induction l with
  | nil => exact ⟨rfl, rfl⟩
  | cons s rest ih =>
    simp only [List.map_cons, execute_song_searches]
    refine ⟨?_, ?_⟩
    · simp [(stepSong_restep o s).1, ih.1]
    · simp [(stepSong_restep o s).2, ih.2]

/- Concrete fixtures used by the closed theorems below: the user meant the song
"Hurt" by "Nine Inch Nails", the extractor emitted the request with the two
fields exchanged, and the frozen catalog only answers the correctly-assigned
query. -/

/-- The catalog record for the recording "Hurt". -/
def mCand : Candidate := ⟨"rec-hurt", "Hurt", 100⟩

/-- Frozen recording backend: only `(title="Hurt", artist="Nine Inch Nails")`
has a result. -/
def so1 : SongOracle := fun t a =>
  if t = "Hurt" ∧ a = some "Nine Inch Nails" then some [mCand] else none

/-- Frozen release-group backend with no results at all. -/
def ao1 : AlbumOracle := fun _ _ => none

/-- Frozen artist backend with no results at all. -/
def aro1 : ArtistOracle := fun _ => none

/-- The extractor output: one song request with title and artist exchanged. -/
def sr1 : SearchResults := ⟨[⟨"Nine Inch Nails", some "Hurt"⟩], [], []⟩

/-- The catalog record for the release-group "Lateralus". -/
def aCand : Candidate := ⟨"rg-lateralus", "Lateralus", 100⟩

/-- Frozen release-group backend: only `(title="Lateralus", artist="Tool")`
has a result. -/
def ao2 : AlbumOracle := fun t a =>
  if t = "Lateralus" ∧ a = some "Tool" then some [aCand] else none

/-- C1: on the request (title="Nine Inch Nails", artist="Hurt"), where only
the swapped query succeeds, the fields ARE exchanged in place — but the code
then emits the value occupying the TITLE field after the exchange ("Hurt", the
name proven to be a song title) as the additional artist, and records the value
occupying the ARTIST field after the exchange ("Nine Inch Nails", the genuine
artist) as misidentified-as-artist: the reverse of the claim, for songs and
albums alike. -/
theorem c1_swap_emission_reversed :
    (execute_song_searches so1 sr1.song_searches).searches
        = [⟨"Hurt", some "Nine Inch Nails"⟩] ∧
    (execute_song_searches so1 sr1.song_searches).additional = ["Hurt"] ∧
    (execute_song_searches so1 sr1.song_searches).misidentified
        = ["Nine Inch Nails"] ∧
    "Nine Inch Nails" ∉ (execute_song_searches so1 sr1.song_searches).additional ∧
    "Hurt" ∉ (execute_song_searches so1 sr1.song_searches).misidentified ∧
    (execute_album_searches ao2 [⟨"Tool", some "Lateralus"⟩]).searches
        = [⟨"Lateralus", some "Tool"⟩] ∧
    (execute_album_searches ao2 [⟨"Tool", some "Lateralus"⟩]).additional
        = ["Lateralus"] ∧
    (execute_album_searches ao2 [⟨"Tool", some "Lateralus"⟩]).misidentified
        = ["Tool"] ∧
    "Tool" ∉ (execute_album_searches ao2 [⟨"Tool", some "Lateralus"⟩]).additional := by
  decide

/-- C2: for a `SongRequest{title, artist}` whose direct query fails and whose
swapped query yields a match, `execute_song_searches` returns that match, its
`additional_artists` list contains the value originally in the artist
position, and its `misidentified_songs` list contains the value originally in
the title position. -/
theorem c2_swap_only_resolution (o : SongOracle) (pre post : List SongSearch)
    (t a : String) (c : Candidate) (hne : a ≠ "")
    (hd : search_song o t (some a) = none)
    (hs : search_song o a (some t) = some c) :
    c ∈ (execute_song_searches o (pre ++ ⟨t, some a⟩ :: post)).matchList ∧
    a ∈ (execute_song_searches o (pre ++ ⟨t, some a⟩ :: post)).additional ∧
    t ∈ (execute_song_searches o (pre ++ ⟨t, some a⟩ :: post)).misidentified := by
  have hstep : stepSong o ⟨t, some a⟩ = ⟨⟨a, some t⟩, some c, [a], [t]⟩ :=
    stepSong_swap o ⟨t, some a⟩ a c rfl hne hd hs
  rw [execute_song_searches_append]
  simp [execute_song_searches, hstep]

theorem c2_swap_only_resolution_witness :
    mCand ∈ (execute_song_searches so1 [⟨"Nine Inch Nails", some "Hurt"⟩]).matchList ∧
    "Hurt" ∈ (execute_song_searches so1 [⟨"Nine Inch Nails", some "Hurt"⟩]).additional ∧
    "Nine Inch Nails" ∈
      (execute_song_searches so1 [⟨"Nine Inch Nails", some "Hurt"⟩]).misidentified :=
  c2_swap_only_resolution so1 [] [] "Nine Inch Nails" "Hurt" mCand
    (by decide) (by decide) (by decide)

/-- C3: in `execute_searches` the song searches run twice on the same
in-place-mutated dicts; the kept (second) invocation books no additional
artists and no misidentified songs, so the artist query set actually built
draws only on the album lists and the explicit artist requests; and for every
song resolving only via swap, the first invocation swapped its fields and
recorded its bookkeeping, while the second invocation resolves the corrected
fields directly with empty bookkeeping. -/
theorem c3_double_execution (so : SongOracle) (ao : AlbumOracle)
    (searches : SearchResults) :
    (execute_song_searches so
        (execute_song_searches so searches.song_searches).searches).additional = [] ∧
    (execute_song_searches so
        (execute_song_searches so searches.song_searches).searches).misidentified = [] ∧
    artists_to_search_of so ao searches =
      pySetDiff ((execute_album_searches ao searches.album_searches).additional
          ++ searches.artist_searches)
        (execute_album_searches ao searches.album_searches).misidentified ∧
    ∀ s ∈ searches.song_searches, ∀ a, s.artist_name = some a → a ≠ "" →
      search_song so s.song_title (some a) = none →
      ∀ c, search_song so a (some s.song_title) = some c →
        (⟨a, some s.song_title⟩ : SongSearch) ∈
          (execute_song_searches so searches.song_searches).searches ∧
        a ∈ (execute_song_searches so searches.song_searches).additional ∧
        stepSong so ⟨a, some s.song_title⟩
          = ⟨⟨a, some s.song_title⟩, some c, [], []⟩ := by
  obtain ⟨hadd, hmis⟩ := second_execution_books_nothing so searches.song_searches
  refine ⟨hadd, hmis, ?_, ?_⟩
  · simp [artists_to_search_of, hadd, hmis]
  · intro s hmem a ha hne hd c hs
    have hstep : stepSong so s = ⟨⟨a, some s.song_title⟩, some c, [a], [s.song_title]⟩ :=
      stepSong_swap so s a c ha hne (ha ▸ hd) hs
    refine ⟨?_, ?_, ?_⟩
    · rw [execute_song_searches_searches_map]
      exact List.mem_map.mpr ⟨s, hmem, by rw [hstep]⟩
    · rw [execute_song_searches_additional_bind]
      exact List.mem_flatMap.mpr ⟨s, hmem, by rw [hstep]; exact List.mem_singleton.mpr rfl⟩
    · exact stepSong_direct so ⟨a, some s.song_title⟩ c hs

theorem c3_double_execution_witness :
    (execute_song_searches so1
        (execute_song_searches so1 sr1.song_searches).searches).additional = [] ∧
    (⟨"Hurt", some "Nine Inch Nails"⟩ : SongSearch) ∈
      (execute_song_searches so1 sr1.song_searches).searches ∧
    stepSong so1 ⟨"Hurt", some "Nine Inch Nails"⟩
      = ⟨⟨"Hurt", some "Nine Inch Nails"⟩, some mCand, [], []⟩ :=
  ⟨(c3_double_execution so1 ao1 sr1).1,
   ((c3_double_execution so1 ao1 sr1).2.2.2 ⟨"Nine Inch Nails", some "Hurt"⟩
      (by decide) "Hurt" rfl (by decide) (by decide) mCand (by decide)).1,
   ((c3_double_execution so1 ao1 sr1).2.2.2 ⟨"Nine Inch Nails", some "Hurt"⟩
      (by decide) "Hurt" rfl (by decide) (by decide) mCand (by decide)).2.2⟩

/-- C4: on a run whose only request is a song that resolves via swap-retry,
the specification's reconciliation formula (§4.4, over a single song-search
execution) yields {"Hurt"}, but the artist query set `execute_searches`
actually builds is empty — the duplicated song-search execution discards the
swap-surfaced additional artists and the misidentified names, so the claimed
set equation fails. -/
theorem c4_artist_set_drops_song_swaps :
    artists_to_search_of so1 ao1 sr1 = [] ∧
    artist_query_set_spec so1 ao1 sr1 = ["Hurt"] ∧
    execute_searches so1 ao1 aro1 sr1 = ⟨[], [mCand], []⟩ ∧
    artist_query_set_spec so1 ao1 sr1 ≠ artists_to_search_of so1 ao1 sr1 := by
  decide

/-- C5: on a non-empty candidate list, `_get_top_match` returns exactly the
first candidate attaining the maximum score, in catalog-returned order. -/
theorem c5_top_match_first_max (l : List Candidate) (h : l ≠ []) :
    ∃ pre c post, l = pre ++ c :: post ∧ getTopMatch l = some c ∧
      (∀ y ∈ l, y.score ≤ c.score) ∧ (∀ y ∈ pre, y.score < c.score) := by
  cases l with
  | nil => exact absurd rfl h
  | cons x xs =>
    obtain ⟨pre, post, hdec, hle, hlt⟩ := pyMaxBy_first_max (fun c => c.score) x xs
    exact ⟨pre, _, post, hdec, rfl, hle, hlt⟩

/-- Candidates with the scores `[7, 3, 9, 9]` of the claim's instance. -/
def cands5 : List Candidate :=
  [⟨"i0", "n0", 7⟩, ⟨"i1", "n1", 3⟩, ⟨"i2", "n2", 9⟩, ⟨"i3", "n3", 9⟩]

theorem c5_top_match_first_max_witness :
    getTopMatch cands5 = some ⟨"i2", "n2", 9⟩ ∧
    (∃ pre c post, cands5 = pre ++ c :: post ∧ getTopMatch cands5 = some c ∧
      (∀ y ∈ cands5, y.score ≤ c.score) ∧ (∀ y ∈ pre, y.score < c.score)) :=
  ⟨by decide, c5_top_match_first_max cands5 (by decide)⟩

/-- C6: a request all of whose catalog responses carry zero candidates (or
lack the result key) resolves to no match — the falsy value, not an error (the
embedding is a total function) — and contributes nothing to the match list,
which is otherwise unchanged. -/
theorem c6_empty_candidates_dropped (o : SongOracle) (pre post : List SongSearch)
    (s : SongSearch)
    (hd : o s.song_title (artistFilter s.artist_name) = none ∨
          o s.song_title (artistFilter s.artist_name) = some [])
    (hs : ∀ a, s.artist_name = some a → a ≠ "" →
          o a (artistFilter (some s.song_title)) = none ∨
          o a (artistFilter (some s.song_title)) = some []) :
    search_song o s.song_title s.artist_name = none ∧
    (execute_song_searches o (pre ++ s :: post)).matchList
      = (execute_song_searches o (pre ++ post)).matchList := by
  have hdirect : search_song o s.song_title s.artist_name = none := by
    rcases hd with h | h <;> simp [search_song, h, getTopMatch]
  refine ⟨hdirect, ?_⟩
  have hstep : stepSong o s = ⟨s, none, [], []⟩ := by
    rw [stepSong]
    rw [hdirect]
    cases ha : s.artist_name with
    | none => rfl
    | some a =>
      by_cases hne : a = ""
      · simp [hne]
      · have hswap : search_song o a (some s.song_title) = none := by
          rcases hs a ha hne with h | h <;> simp [search_song, h, getTopMatch]
        simp [hne, hswap]
  rw [execute_song_searches_append, execute_song_searches_append]
  simp [execute_song_searches, hstep]

/-- A frozen recording backend with no results for any query. -/
def soEmpty : SongOracle := fun _ _ => none

theorem c6_empty_candidates_dropped_witness :
    search_song soEmpty "Voidsong" (some "Nobody") = none ∧
    (execute_song_searches soEmpty [⟨"Voidsong", some "Nobody"⟩]).matchList
      = (execute_song_searches soEmpty []).matchList :=
  c6_empty_candidates_dropped soEmpty [] [] ⟨"Voidsong", some "Nobody"⟩
    (Or.inl rfl) (fun _ _ _ => Or.inl rfl)

/-! Track deduplication, from `create_playlist_from_results`
(`playlist_generator.py`, lines 177–199). -/

/-- The fields of `sp.track(track_id)` that deduplication reads. -/
structure TrackInfo where
  name : String
  artistName : String
  popularity : Int
  deriving DecidableEq, Repr

/-- Python's `s.lower().strip()`, written over the underlying character list:
lowercase every character, then drop whitespace from both ends. -/
def pyLowerStrip (s : String) : String :=
  ⟨(((s.data.map Char.toLower).dropWhile Char.isWhitespace).reverse.dropWhile
      Char.isWhitespace).reverse⟩

/-- The dedup key: `(track['name'].lower().strip(),
track['artists'][0]['name'].lower().strip())`. -/
def normKey (t : TrackInfo) : String × String :=
  (pyLowerStrip t.name, pyLowerStrip t.artistName)

/-- A value of the `unique_tracks` dict: `{'id': ..., 'popularity': ...}`. -/
structure DedupEntry where
  id : String
  popularity : Int
  deriving DecidableEq, Repr

/-- A Python dict modelled as an insertion-ordered association list. -/
def lookupEntry : List ((String × String) × DedupEntry) → (String × String) →
    Option DedupEntry
  | [], _ => none
  | (k', e) :: rest, k => if k' = k then some e else lookupEntry rest k

/-- Dict assignment `unique_tracks[key] = entry`: overwrite in place when the
key exists, append otherwise. -/
def updateEntry : List ((String × String) × DedupEntry) → (String × String) →
    DedupEntry → List ((String × String) × DedupEntry)
  | [], k, e => [(k, e)]
  | (k', e') :: rest, k, e =>
    if k' = k then (k, e) :: rest else (k', e') :: updateEntry rest k e

/-- One iteration of the dedup loop: fetch the track info (an exception is
caught and the id skipped, modelled by a `none` from the oracle), then
`if key not in unique_tracks or info['popularity'] > unique_tracks[key]['popularity']`
overwrite the entry. -/
def dedupStep (oracle : String → Option TrackInfo)
    (m : List ((String × String) × DedupEntry)) (tid : String) :
    List ((String × String) × DedupEntry) :=
  match oracle tid with
  | none => m
  | some info =>
    match lookupEntry m (normKey info) with
    | none => updateEntry m (normKey info) ⟨tid, info.popularity⟩
    | some e =>
      if info.popularity > e.popularity then
        updateEntry m (normKey info) ⟨tid, info.popularity⟩
      else m

/-- The `unique_tracks` dict after the whole dedup loop over the candidate
track ids (in iteration order). -/
def dedupTracks (oracle : String → Option TrackInfo) (ids : List String) :
    List ((String × String) × DedupEntry) :=
  ids.foldl (dedupStep oracle) []

/-- All `(id, popularity)` pairs among the processed ids whose fetched info
normalizes to key `k`, in iteration order. -/
def keyGroup (oracle : String → Option TrackInfo) (k : String × String)
    (ids : List String) : List (String × Int) :=
  ids.filterMap (fun tid =>
    match oracle tid with
    | none => none
    | some info => if normKey info = k then some (tid, info.popularity) else none)

/-- The entry the dedup loop retains for one key group: the first pair
attaining the maximum popularity (empty group: no entry). -/
def bestOfGroup : List (String × Int) → Option DedupEntry
  | [] => none
  | x :: xs =>
    some ⟨(pyMaxBy (fun p => p.2) x xs).1, (pyMaxBy (fun p => p.2) x xs).2⟩

/-- The keys of the dict, in insertion order. -/
def keysOf (m : List ((String × String) × DedupEntry)) : List (String × String) :=
  m.map Prod.fst

theorem lookupEntry_update_self (m : List ((String × String) × DedupEntry))
    (k : String × String) (e : DedupEntry) :
    lookupEntry (updateEntry m k e) k = some e := by
  induction m with
  | nil => simp [updateEntry, lookupEntry]
  | cons p rest ih =>
    by_cases h : p.1 = k
    · simp [updateEntry, lookupEntry, h]
    · simp [updateEntry, lookupEntry, h, ih]

theorem lookupEntry_update_ne (m : List ((String × String) × DedupEntry))
    (k k' : String × String) (e : DedupEntry) (h : k' ≠ k) :
    lookupEntry (updateEntry m k e) k' = lookupEntry m k' := by
  induction m with
  | nil => simp [updateEntry, lookupEntry, Ne.symm h]
  | cons p rest ih =>
    by_cases hp : p.1 = k
    · simp [updateEntry, lookupEntry, hp, Ne.symm h]
    · by_cases hp' : p.1 = k'
      · simp [updateEntry, lookupEntry, hp, hp', h]
      · simp [updateEntry, lookupEntry, hp, hp', ih]

theorem lookupEntry_eq_none_iff (m : List ((String × String) × DedupEntry))
    (k : String × String) :
    lookupEntry m k = none ↔ k ∉ keysOf m := by
  induction m with
  | nil => simp [lookupEntry, keysOf]
  | cons p rest ih =>
    by_cases h : p.1 = k
    · simp [lookupEntry, keysOf, h]
    · simp [lookupEntry, keysOf, h, ih, Ne.symm h]

theorem keysOf_update_mem (m : List ((String × String) × DedupEntry))
    (k : String × String) (e : DedupEntry) (h : k ∈ keysOf m) :
    keysOf (updateEntry m k e) = keysOf m := by
  induction m with
  | nil => simp [keysOf] at h
  | cons p rest ih =>
    by_cases hp : p.1 = k
    · simp [updateEntry, keysOf, hp]
    · have h0 : k ∈ p.1 :: keysOf rest := by simpa [keysOf] using h
      have h' : k ∈ keysOf rest := by
        rcases List.mem_cons.mp h0 with h1 | h1
        · exact absurd h1.symm hp
        · exact h1
      have hrec := ih h'
      simp only [keysOf] at hrec
      simp [updateEntry, keysOf, hp, hrec]

theorem keysOf_update_not_mem (m : List ((String × String) × DedupEntry))
    (k : String × String) (e : DedupEntry) (h : k ∉ keysOf m) :
    keysOf (updateEntry m k e) = keysOf m ++ [k] := by
  induction m with
  | nil => simp [updateEntry, keysOf]
  | cons p rest ih =>
    have h0 : k ∉ p.1 :: keysOf rest := by simpa [keysOf] using h
    have hp : p.1 ≠ k := fun hc => h0 (by simp [hc])
    have h' : k ∉ keysOf rest := fun hc => h0 (List.mem_cons_of_mem _ hc)
    have hrec := ih h'
    simp only [keysOf] at hrec
    simp [updateEntry, keysOf, hp, hrec]

theorem dedupTracks_keys_nodup (oracle : String → Option TrackInfo)
    (ids : List String) : (keysOf (dedupTracks oracle ids)).Nodup := by
  induction ids using List.reverseRecOn with
  | nil => simp [dedupTracks, keysOf]
  | append_singleton l i ih =>
    have hstep : dedupTracks oracle (l ++ [i])
        = dedupStep oracle (dedupTracks oracle l) i := by
      simp [dedupTracks, List.foldl_append]
    rw [hstep]
    cases ho : oracle i with
    | none =>
      simp only [dedupStep, ho]
      exact ih
    | some info =>
      simp only [dedupStep, ho]
      cases hl : lookupEntry (dedupTracks oracle l) (normKey info) with
      | none =>
        have hk : normKey info ∉ keysOf (dedupTracks oracle l) :=
          (lookupEntry_eq_none_iff _ _).mp hl
        rw [keysOf_update_not_mem _ _ _ hk]
        simp [List.nodup_append, ih, hk]
      | some e =>
        have hk : normKey info ∈ keysOf (dedupTracks oracle l) := by
          by_contra hk
          rw [(lookupEntry_eq_none_iff _ _).mpr hk] at hl
          cases hl
        dsimp only
        by_cases hpop : info.popularity > e.popularity
        · rw [if_pos hpop, keysOf_update_mem _ _ _ hk]
          exact ih
        · rw [if_neg hpop]
          exact ih

theorem bestOfGroup_append_singleton (g : List (String × Int)) (p : String × Int) :
    bestOfGroup (g ++ [p]) =
      match bestOfGroup g with
      | none => some ⟨p.1, p.2⟩
      | some e => if p.2 > e.popularity then some ⟨p.1, p.2⟩ else some e := by
  cases g with
  | nil => simp [bestOfGroup, pyMaxBy]
  | cons x xs =>
    simp only [List.cons_append, bestOfGroup, pyMaxBy, List.foldl_append, List.foldl_cons,
      List.foldl_nil]
    by_cases h : p.2 > (List.foldl (fun b c => if c.2 > b.2 then c else b) x xs).2 <;>
      simp [h]

/-- The invariant tying the dict to the per-key groups: the entry stored under
`k` is exactly `bestOfGroup` of the ids processed so far whose info maps to
`k`. -/
theorem dedupTracks_lookup (oracle : String → Option TrackInfo)
    (ids : List String) (k : String × String) :
    lookupEntry (dedupTracks oracle ids) k = bestOfGroup (keyGroup oracle k ids) := by
  induction ids using List.reverseRecOn with
  | nil => simp [dedupTracks, lookupEntry, keyGroup, bestOfGroup]
  | append_singleton l i ih =>
    have hstep : dedupTracks oracle (l ++ [i])
        = dedupStep oracle (dedupTracks oracle l) i := by
      simp [dedupTracks, List.foldl_append]
    have hgrp : keyGroup oracle k (l ++ [i])
        = keyGroup oracle k l ++ keyGroup oracle k [i] := by
      simp [keyGroup]
    rw [hstep, hgrp]
    cases ho : oracle i with
    | none =>
      have hnone : keyGroup oracle k [i] = [] := by simp [keyGroup, ho]
      rw [hnone, List.append_nil, ← ih]
      simp only [dedupStep, ho]
    | some info =>
      simp only [dedupStep, ho]
      by_cases hk : normKey info = k
      · subst hk
        have hone : keyGroup oracle (normKey info) [i] = [(i, info.popularity)] := by
          simp [keyGroup, ho]
        rw [hone, bestOfGroup_append_singleton, ← ih]
        cases hl : lookupEntry (dedupTracks oracle l) (normKey info) with
        | none => simp [hl, lookupEntry_update_self]
        | some e =>
          by_cases hpop : info.popularity > e.popularity
          · simp [hl, hpop, lookupEntry_update_self]
          · simp [hl, hpop]
      · have hnone : keyGroup oracle k [i] = [] := by
          simp [keyGroup, ho, hk]
        rw [hnone, List.append_nil, ← ih]
        cases hl : lookupEntry (dedupTracks oracle l) (normKey info) with
        | none =>
          dsimp only
          exact lookupEntry_update_ne _ _ _ _ (fun hc => hk hc.symm)
        | some e =>
          dsimp only
          by_cases hpop : info.popularity > e.popularity
          · rw [if_pos hpop]
            exact lookupEntry_update_ne _ _ _ _ (fun hc => hk hc.symm)
          · rw [if_neg hpop]

theorem lookupEntry_of_mem (m : List ((String × String) × DedupEntry))
    (k : String × String) (e : DedupEntry) (hnd : (keysOf m).Nodup)
    (hmem : (k, e) ∈ m) : lookupEntry m k = some e := by
  induction m with
  | nil => cases hmem
  | cons p rest ih =>
    rcases List.mem_cons.mp hmem with rfl | hmem'
    · simp [lookupEntry]
    · have hk : p.1 ≠ k := by
        intro hc
        have : k ∈ keysOf rest := by
          exact List.mem_map.mpr ⟨(k, e), hmem', rfl⟩
        rw [keysOf, List.map_cons, List.nodup_cons] at hnd
        exact hnd.1 (hc ▸ this)
      have hnd' : (keysOf rest).Nodup := by
        rw [keysOf, List.map_cons, List.nodup_cons] at hnd
        exact hnd.2
      simp [lookupEntry, hk, ih hnd' hmem']

theorem mem_of_lookupEntry (m : List ((String × String) × DedupEntry))
    (k : String × String) (e : DedupEntry) (h : lookupEntry m k = some e) :
    (k, e) ∈ m := by
  induction m with
  | nil => cases h
  | cons p rest ih =>
    obtain ⟨k', e'⟩ := p
    by_cases hp : k' = k
    · subst hp
      rw [lookupEntry, if_pos rfl] at h
      injection h with h2
      subst h2
      exact List.mem_cons_self _ _
    · rw [lookupEntry, if_neg hp] at h
      exact List.mem_cons_of_mem _ (ih h)

/-- C7: over any candidate id list and track oracle, the dedup dict holds at
most one entry per normalized `(name, artist)` key, and the entry retained for
a key is the first encountered unit attaining the group's maximum popularity;
every key with at least one fetched unit is represented. -/
theorem c7_dedup_invariant (oracle : String → Option TrackInfo) (ids : List String) :
    (keysOf (dedupTracks oracle ids)).Nodup ∧
    (∀ k e, (k, e) ∈ dedupTracks oracle ids →
      ∃ pre x post, keyGroup oracle k ids = pre ++ x :: post ∧
        e = ⟨x.1, x.2⟩ ∧ (∀ y ∈ keyGroup oracle k ids, y.2 ≤ x.2) ∧
        (∀ y ∈ pre, y.2 < x.2)) ∧
    (∀ k, keyGroup oracle k ids ≠ [] →
      ∃ e, (k, e) ∈ dedupTracks oracle ids) := by
  refine ⟨dedupTracks_keys_nodup oracle ids, ?_, ?_⟩
  · intro k e hmem
    have hl : lookupEntry (dedupTracks oracle ids) k = some e :=
      lookupEntry_of_mem _ _ _ (dedupTracks_keys_nodup oracle ids) hmem
    rw [dedupTracks_lookup] at hl
    cases hg : keyGroup oracle k ids with
    | nil => rw [hg] at hl; cases hl
    | cons x xs =>
      rw [hg] at hl
      simp only [bestOfGroup] at hl
      injection hl with hl
      obtain ⟨pre, post, hdec, hle, hlt⟩ := pyMaxBy_first_max (fun p => p.2) x xs
      exact ⟨pre, pyMaxBy (fun p => p.2) x xs, post, hdec, hl.symm, hle, hlt⟩
  · intro k hne
    cases hg : keyGroup oracle k ids with
    | nil => exact absurd hg hne
    | cons x xs =>
      refine ⟨⟨(pyMaxBy (fun p => p.2) x xs).1, (pyMaxBy (fun p => p.2) x xs).2⟩, ?_⟩
      apply mem_of_lookupEntry
      rw [dedupTracks_lookup, hg, bestOfGroup]

/-- The frozen track-info backend of the claim's instance: two ids whose
units normalize to the same key with popularities 80 and 95. -/
def trackDB : String → Option TrackInfo := fun tid =>
  if tid = "t80" then some ⟨"Money", "Pink Floyd", 80⟩
  else if tid = "t95" then some ⟨"money", "PINK FLOYD", 95⟩
  else none

theorem c7_dedup_invariant_witness :
    dedupTracks trackDB ["t80", "t95"]
      = [(("money", "pink floyd"), ⟨"t95", 95⟩)] ∧
    (∃ pre x post,
      keyGroup trackDB ("money", "pink floyd") ["t80", "t95"] = pre ++ x :: post ∧
      (⟨"t95", 95⟩ : DedupEntry) = ⟨x.1, x.2⟩ ∧
      (∀ y ∈ keyGroup trackDB ("money", "pink floyd") ["t80", "t95"], y.2 ≤ x.2) ∧
      (∀ y ∈ pre, y.2 < x.2)) :=
  ⟨by decide,
   (c7_dedup_invariant trackDB ["t80", "t95"]).2.1 ("money", "pink floyd")
     ⟨"t95", 95⟩ (by decide)⟩

/-! Album track sampling, from `_get_popular_tracks_from_album`
(`playlist_generator.py`, lines 34–60). -/

/-- Stable descending insertion: `x` lands before the first element it
strictly beats, i.e. after every earlier element with an equal key. -/
def insertDesc (f : α → Int) (x : α) : List α → List α
  | [] => [x]
  | y :: ys => if f x > f y then x :: y :: ys else y :: insertDesc f x ys

/-- Python's `sorted(l, key=f, reverse=True)`: a stable sort, descending on
the key, modelled as left-to-right stable insertion. -/
def sortDesc (f : α → Int) (l : List α) : List α :=
  l.foldl (fun acc x => insertDesc f x acc) []

/-- Structural worker for `batches50`; the fuel is an upper bound on the
number of batches, so `length` fuel is always enough. -/
def batches50Aux : Nat → List α → List (List α)
  | _, [] => []
  | 0, _ :: _ => []
  | fuel + 1, x :: xs => (x :: xs.take 49) :: batches50Aux fuel (xs.drop 49)

/-- The batching `for i in range(0, len(track_ids), 50)`. -/
def batches50 (l : List α) : List (List α) :=
  batches50Aux l.length l

/-- `_get_popular_tracks_from_album`: fetch the album's track list, then for
each 50-id batch fetch popularity scores, sort THAT BATCH descending, keep the
batch's top `limit`, concatenate, and finally return the ids of the first
`limit` entries of the concatenation.  The id type is a parameter (the code is
duck-typed); `pop` is the frozen per-track popularity lookup. -/
def getPopularTracksFromAlbum (albumTracks : List α) (pop : α → Int)
    (limit : Nat) : List α :=
  ((batches50 albumTracks).foldl
    (fun acc b => acc ++ (sortDesc (fun t => t.2) (b.map (fun tid => (tid, pop tid)))).take limit)
    []).take limit |>.map Prod.fst

/-- The sampling rule as the specification words it: sort ALL the album's
tracks by popularity descending and take the global top `limit`.  Compared
against `getPopularTracksFromAlbum` to exhibit the per-batch truncation. -/
def topTracksSpec (albumTracks : List α) (pop : α → Int) (limit : Nat) : List α :=
  ((sortDesc (fun t => t.2) (albumTracks.map (fun tid => (tid, pop tid)))).take limit).map
    Prod.fst

/-- A 51-track album whose most popular track (popularity 100, all others 1)
is the 51st. -/
def ids8 : List Nat := List.range 51

/-- The frozen popularity lookup for `ids8`. -/
def pop8 : Nat → Int := fun i => if i = 50 then 100 else 1

/-- C8: on a 51-track album with `album_limit = 1` whose only popular track is
the 51st, the code returns the first track of the first 50-batch (popularity
1), not the album-global most popular track: each 50-id batch is truncated to
the top `limit` on its own and the concatenation is then cut to `limit`, so
the global top-N is only taken for albums of at most 50 tracks. -/
theorem c8_batch_truncation :
    getPopularTracksFromAlbum ids8 pop8 1 = [0] ∧
    topTracksSpec ids8 pop8 1 = [50] ∧
    pop8 50 > pop8 0 ∧
    getPopularTracksFromAlbum ids8 pop8 1 ≠ topTracksSpec ids8 pop8 1 := by
  decide

/-! Batch result association, from `process_comments_file`
(`llm_linker.py`, lines 266–300). -/

/-- The `asyncio.as_completed` consumption loop: per-text processing results
are appended to `batch_results` in COMPLETION order.  `order` lists the task
indices in their completion order (a permutation of the batch indices);
`extract` is the frozen per-text processing (extraction plus the searches run
on it, all a deterministic function of the text). -/
def asCompletedResults (extract : α → β) (texts : List α) (order : List Nat) :
    List β :=
  order.filterMap (fun i => (texts.get? i).map extract)

/-- The `zip(batch_metadata, batch_results)` pairing: metadata in original
input order against results in the order they were collected. -/
def matchResultsToMetadata (meta : List μ) (res : List β) : List (μ × β) :=
  meta.zip res

/-- One batch of `process_comments_file`: collect results in completion order,
then zip them against the metadata list. -/
def processBatchPairs (extract : α → β) (texts : List α) (meta : List μ)
    (order : List Nat) : List (μ × β) :=
  matchResultsToMetadata meta (asCompletedResults extract texts order)

/-- C9: with two texts whose extractions complete in reversed order — a valid
completion order, i.e. a permutation of the task indices — the metadata of the
first text unit is paired with the result extracted from the second: the
association depends on completion order, against the claim (and the code's own
comment `maintaining original order`). -/
theorem c9_completion_order_mismatch :
    List.Perm [1, 0] (List.range 2) ∧
    processBatchPairs (fun t => String.append t "!") ["a", "b"] [10, 20] [1, 0]
      = [(10, "b!"), (20, "a!")] ∧
    (10, "a!") ∉
      processBatchPairs (fun t => String.append t "!") ["a", "b"] [10, 20] [1, 0] ∧
    processBatchPairs (fun t => String.append t "!") ["a", "b"] [10, 20] [0, 1]
      = [(10, "a!"), (20, "b!")] := by
  decide

/-- C10: two runs on the same input, the same frozen extractor and the same
frozen catalog, differing only in the completion order of the concurrent
extraction calls (both orders are permutations of the task indices), produce
different output pair lists — different even as unordered sets — so the
pipeline's output artifact is not a function of the frozen inputs alone. -/
theorem c10_output_not_run_stable :
    List.Perm [0, 1] (List.range 2) ∧
    List.Perm [1, 0] (List.range 2) ∧
    processBatchPairs (fun t => t) ["x", "y"] [1, 2] [0, 1]
      ≠ processBatchPairs (fun t => t) ["x", "y"] [1, 2] [1, 0] ∧
    ¬ List.Perm
        (processBatchPairs (fun t => t) ["x", "y"] [1, 2] [0, 1])
        (processBatchPairs (fun t => t) ["x", "y"] [1, 2] [1, 0]) := by
  decide

end IfYouLike
